import Mathlib

/-!
Verification of the conflict-detection core of the Meeting-Scheduler
repository, as a shallow embedding in Lean.

Timestamps are modelled as integers (only their ordering matters to the
code), participant and meeting identifiers as naturals.  The database is
modelled by the two read operations the service performs: looking up a
participant row by id, and fetching the meetings joined to a participant
(the `Meeting JOIN MeetingParticipant` query of the service, before the
overlap `WHERE` clause, in the order the repository returns them).
-/

namespace MeetingScheduler

abbrev UUID := Nat

/-- A row of the `participants` table (`app/models.py`), the fields the
conflict service reads. -/
structure Participant where
  id : UUID
  name : String
  email : String
deriving DecidableEq, Repr

/-- A row of the `meetings` table (`app/models.py`), the fields the
conflict service reads. -/
structure Meeting where
  id : UUID
  title : String
  start_time : Int
  end_time : Int
deriving DecidableEq, Repr

/-- `ConflictInfo` from `app/schemas.py`. -/
structure ConflictInfo where
  participant_id : UUID
  participant_name : String
  participant_email : String
  conflicting_meeting_id : UUID
  conflicting_meeting_title : String
  conflicting_start_time : Int
  conflicting_end_time : Int
deriving DecidableEq, Repr

/-- The read-only view of the database that `ConflictService.check_conflicts`
consumes: the participant directory, and for each participant id the list
of meetings joined to it through `MeetingParticipant`, in repository
order. -/
structure DB where
  participants : List Participant
  bookingsFor : UUID → List Meeting

/-- `db.query(Participant).filter(Participant.id == participant_id).first()`. -/
def findParticipant (db : DB) (participant_id : UUID) : Option Participant :=
  db.participants.find? (fun p => p.id == participant_id)

/-- The `or_` of the three `and_` cases in the meetings query of
`ConflictService.check_conflicts` (`app/services/conflict_service.py`),
applied to one candidate meeting row:
case 1 `start_time >= Ps AND start_time < Pe`,
case 2 `end_time > Ps AND end_time <= Pe`,
case 3 `start_time <= Ps AND end_time >= Pe`. -/
def overlapsProposed (start_time end_time : Int) (m : Meeting) : Bool :=
  (decide (m.start_time ≥ start_time) && decide (m.start_time < end_time)) ||
  (decide (m.end_time > start_time) && decide (m.end_time ≤ end_time)) ||
  (decide (m.start_time ≤ start_time) && decide (m.end_time ≥ end_time))

/-- The meetings query of `check_conflicts` for one participant: the join
filtered by the overlap clause, then by `Meeting.id != exclude_meeting_id`
when an exclusion id was supplied (a `UUID` is always truthy in the
source's `if exclude_meeting_id:` test). -/
def conflictingMeetings (db : DB) (participant_id : UUID)
    (start_time end_time : Int) (exclude_meeting_id : Option UUID) :
    List Meeting :=
  let query := (db.bookingsFor participant_id).filter
    (overlapsProposed start_time end_time)
  match exclude_meeting_id with
  | some eid => query.filter (fun m => decide (m.id ≠ eid))
  | none => query

/-- Construction of one `ConflictInfo` record in the inner loop of
`check_conflicts`. -/
def mkConflictInfo (participant : Participant) (meeting : Meeting) :
    ConflictInfo :=
  { participant_id := participant.id
    participant_name := participant.name
    participant_email := participant.email
    conflicting_meeting_id := meeting.id
    conflicting_meeting_title := meeting.title
    conflicting_start_time := meeting.start_time
    conflicting_end_time := meeting.end_time }

/-- `ConflictService.check_conflicts`: the outer loop over
`participant_ids`, with a `continue` on a missing participant row, the
per-participant meetings query, and the append of one record per
conflicting meeting; returns `(has_conflicts, conflicts)` with
`has_conflicts = len(conflicts) > 0`. -/
def check_conflicts (db : DB) (participant_ids : List UUID)
    (start_time end_time : Int) (exclude_meeting_id : Option UUID) :
    Bool × List ConflictInfo :=
  let conflicts := participant_ids.foldl (fun acc participant_id =>
    match findParticipant db participant_id with
    | none => acc
    | some participant =>
        acc ++ (conflictingMeetings db participant_id start_time end_time
            exclude_meeting_id).map (mkConflictInfo participant)) []
  (decide (conflicts.length > 0), conflicts)

/-- The records one id of `participant_ids` contributes: none when the
participant row is missing, otherwise one per conflicting meeting. -/
def perParticipantConflicts (db : DB) (start_time end_time : Int)
    (exclude_meeting_id : Option UUID) (participant_id : UUID) :
    List ConflictInfo :=
  match findParticipant db participant_id with
  | none => []
  | some participant =>
      (conflictingMeetings db participant_id start_time end_time
        exclude_meeting_id).map (mkConflictInfo participant)

theorem foldl_conflicts_eq (db : DB) (Ps Pe : Int) (excl : Option UUID)
    (ids : List UUID) (acc : List ConflictInfo) :
    ids.foldl (fun acc participant_id =>
      match findParticipant db participant_id with
      | none => acc
      | some participant =>
          acc ++ (conflictingMeetings db participant_id Ps Pe excl).map
            (mkConflictInfo participant)) acc
      = acc ++ ids.flatMap (perParticipantConflicts db Ps Pe excl) := by
  induction ids generalizing acc with
  | nil => simp
  | cons pid rest ih =>
      simp only [List.foldl_cons, List.flatMap_cons]
      rw [ih]
      cases h : findParticipant db pid <;>
        simp [perParticipantConflicts, h]

theorem check_conflicts_eq (db : DB) (ids : List UUID) (Ps Pe : Int)
    (excl : Option UUID) :
    check_conflicts db ids Ps Pe excl =
      (decide ((ids.flatMap (perParticipantConflicts db Ps Pe excl)).length > 0),
        ids.flatMap (perParticipantConflicts db Ps Pe excl)) := by
  unfold check_conflicts
  rw [foldl_conflicts_eq]
  simp

theorem overlapsProposed_iff (Ps Pe : Int) (m : Meeting) :
    overlapsProposed Ps Pe m = true ↔
      ((Ps ≤ m.start_time ∧ m.start_time < Pe) ∨
       (Ps < m.end_time ∧ m.end_time ≤ Pe) ∨
       (m.start_time ≤ Ps ∧ Pe ≤ m.end_time)) := by
  simp only [overlapsProposed, Bool.or_eq_true, Bool.and_eq_true,
    decide_eq_true_eq, ge_iff_le, gt_iff_lt]
  constructor <;> intro h <;> tauto

theorem check_conflicts_snd (db : DB) (ids : List UUID) (Ps Pe : Int)
    (excl : Option UUID) :
    (check_conflicts db ids Ps Pe excl).snd =
      ids.flatMap (perParticipantConflicts db Ps Pe excl) := by
  rw [check_conflicts_eq]

/-- Concrete fixture: one participant with two bookings. -/
def participantW : Participant :=
  { id := 1, name := "alice", email := "alice@example.com" }

def meetingW1 : Meeting :=
  { id := 10, title := "standup", start_time := 0, end_time := 10 }

def meetingW2 : Meeting :=
  { id := 20, title := "retro", start_time := 5, end_time := 15 }

def dbW : DB :=
  { participants := [participantW]
    bookingsFor := fun pid => if pid = 1 then [meetingW1, meetingW2] else [] }

/-- C1: with `exclude_meeting_id` absent, for every request participant id
that matches an existing participant and every booking `B` of that
participant, the conflict record for `B` is in the returned list iff one
of the three cases holds against the proposed interval `[Ps, Pe)`:
`Bs ∈ [Ps, Pe)`, or `Be ∈ (Ps, Pe]`, or `Bs ≤ Ps ∧ Be ≥ Pe`. -/
theorem check_conflicts_overlap_membership (db : DB)
    (participant_ids : List UUID) (Ps Pe : Int) (pid : UUID)
    (p : Participant) (B : Meeting) (hpid : pid ∈ participant_ids)
    (hp : findParticipant db pid = some p) (hB : B ∈ db.bookingsFor pid) :
    mkConflictInfo p B ∈ (check_conflicts db participant_ids Ps Pe none).snd ↔
      ((Ps ≤ B.start_time ∧ B.start_time < Pe) ∨
       (Ps < B.end_time ∧ B.end_time ≤ Pe) ∨
       (B.start_time ≤ Ps ∧ Pe ≤ B.end_time)) := by
  rw [check_conflicts_snd]
  rw [List.mem_flatMap]
  constructor
  · rintro ⟨a, _, hmem⟩
    unfold perParticipantConflicts at hmem
    cases hq : findParticipant db a with
    | none => rw [hq] at hmem; simp at hmem
    | some q =>
        rw [hq] at hmem
        rcases List.mem_map.mp hmem with ⟨B', hB', hEq⟩
        have hs : B'.start_time = B.start_time :=
          congrArg ConflictInfo.conflicting_start_time hEq
        have he : B'.end_time = B.end_time :=
          congrArg ConflictInfo.conflicting_end_time hEq
        have hov : overlapsProposed Ps Pe B' = true := by
          simp only [conflictingMeetings] at hB'
          exact (List.mem_filter.mp hB').2
        rw [overlapsProposed_iff, hs, he] at hov
        exact hov
  · intro hov
    refine ⟨pid, hpid, ?_⟩
    unfold perParticipantConflicts
    rw [hp]
    refine List.mem_map.mpr ⟨B, ?_, rfl⟩
    simp only [conflictingMeetings]
    exact List.mem_filter.mpr ⟨hB, (overlapsProposed_iff Ps Pe B).mpr hov⟩

/-- Witness for C1 at the fixture database: the record for the strictly
overlapping booking `[0,10)` against the proposed `[5,15)` is reported. -/
theorem check_conflicts_overlap_membership_witness :
    mkConflictInfo participantW meetingW1 ∈
      (check_conflicts dbW [1] 5 15 none).snd :=
  (check_conflicts_overlap_membership dbW [1] 5 15 1 participantW meetingW1
      (by decide) (by rfl) (by simp [dbW])).mpr (by decide)

/-- C2: for valid intervals (`Bs < Be`, `Ps < Pe`) the three-case
classification used by the meetings query is equivalent to the half-open
overlap test `Bs < Pe ∧ Be > Ps`; touching endpoints (`Be = Ps` or
`Bs = Pe`) are classified as non-overlapping. -/
theorem overlap_cases_equiv_half_open (Ps Pe : Int) (m : Meeting)
    (hB : m.start_time < m.end_time) (hP : Ps < Pe) :
    (overlapsProposed Ps Pe m = true ↔
      (m.start_time < Pe ∧ Ps < m.end_time)) ∧
    (m.end_time = Ps → overlapsProposed Ps Pe m = false) ∧
    (m.start_time = Pe → overlapsProposed Ps Pe m = false) := by
  rcases m with ⟨i, t, Bs, Be⟩
  have h := overlapsProposed_iff Ps Pe ⟨i, t, Bs, Be⟩
  simp only at h hB ⊢
  refine ⟨?_, ?_, ?_⟩
  · rw [h]
    constructor
    · rintro (⟨h1, h2⟩ | ⟨h1, h2⟩ | ⟨h1, h2⟩) <;> omega
    · rintro ⟨h1, h2⟩
      by_cases hc : Ps ≤ Bs
      · left; exact ⟨hc, h1⟩
      · by_cases hd : Be ≤ Pe
        · right; left; exact ⟨h2, hd⟩
        · right; right; omega
  · intro he
    rw [Bool.eq_false_iff, Ne, h]
    rintro (⟨h1, h2⟩ | ⟨h1, h2⟩ | ⟨h1, h2⟩) <;> omega
  · intro he
    rw [Bool.eq_false_iff, Ne, h]
    rintro (⟨h1, h2⟩ | ⟨h1, h2⟩ | ⟨h1, h2⟩) <;> omega

/-- Witness for C2: a booking `[0,10)` touching a proposed `[10,20)` at
the boundary is classified as non-overlapping. -/
theorem overlap_cases_equiv_half_open_witness :
    overlapsProposed 10 20 meetingW1 = false :=
  (overlap_cases_equiv_half_open 10 20 meetingW1 (by decide) (by decide)).2.1
    (by decide)

/-- C3: when `exclude_meeting_id` is supplied, no returned record carries
that meeting id. -/
theorem check_conflicts_excludes_meeting (db : DB) (ids : List UUID)
    (Ps Pe : Int) (eid : UUID) (c : ConflictInfo)
    (hc : c ∈ (check_conflicts db ids Ps Pe (some eid)).snd) :
    c.conflicting_meeting_id ≠ eid := by
  rw [check_conflicts_snd] at hc
  rcases List.mem_flatMap.mp hc with ⟨a, _, hmem⟩
  unfold perParticipantConflicts at hmem
  cases hq : findParticipant db a with
  | none => rw [hq] at hmem; simp at hmem
  | some q =>
      rw [hq] at hmem
      rcases List.mem_map.mp hmem with ⟨B, hB, hEq⟩
      have hid : B.id ≠ eid := by
        simp only [conflictingMeetings] at hB
        exact of_decide_eq_true (List.mem_filter.mp hB).2
      have hcid : c.conflicting_meeting_id = B.id := by
        rw [← hEq]; rfl
      rw [hcid]
      exact hid

/-- Witness for C3: excluding meeting 10 leaves only the record for
meeting 20, whose id differs from the excluded one. -/
theorem check_conflicts_excludes_meeting_witness :
    (mkConflictInfo participantW meetingW2).conflicting_meeting_id ≠ 10 :=
  check_conflicts_excludes_meeting dbW [1] 0 10 10
    (mkConflictInfo participantW meetingW2) (by decide)

/-- C5: `has_conflicts` is `true` iff the returned conflicts list is
non-empty; the flag is derived from the list. -/
theorem has_conflicts_iff_nonempty (db : DB) (ids : List UUID)
    (Ps Pe : Int) (excl : Option UUID) :
    (check_conflicts db ids Ps Pe excl).fst = true ↔
      (check_conflicts db ids Ps Pe excl).snd ≠ [] := by
  rw [check_conflicts_eq]
  simp only [decide_eq_true_eq]
  exact List.length_pos

/-- C4: the returned sequence is exactly one record per
(participant, overlapping non-excluded booking) pair, ordered by the
position of the id in `participant_ids` and, within one participant, by
the order the repository returned that participant's bookings, with no
secondary sort. -/
theorem check_conflicts_record_per_pair (db : DB) (ids : List UUID)
    (Ps Pe : Int) (excl : Option UUID) :
    (check_conflicts db ids Ps Pe excl).snd =
      ids.flatMap (fun pid =>
        match findParticipant db pid with
        | none => []
        | some p =>
            (conflictingMeetings db pid Ps Pe excl).map (mkConflictInfo p)) := by
  rw [check_conflicts_snd]
  rfl

/-- C6: an unknown participant id contributes nothing and does not change
the records produced for the other ids: deleting it from the request
leaves the result unchanged. -/
theorem unknown_participant_inert (db : DB) (xs ys : List UUID) (u : UUID)
    (Ps Pe : Int) (excl : Option UUID)
    (hu : findParticipant db u = none) :
    check_conflicts db (xs ++ u :: ys) Ps Pe excl =
      check_conflicts db (xs ++ ys) Ps Pe excl := by
  rw [check_conflicts_eq, check_conflicts_eq]
  have hz : perParticipantConflicts db Ps Pe excl u = [] := by
    unfold perParticipantConflicts
    rw [hu]
  have h : (xs ++ u :: ys).flatMap (perParticipantConflicts db Ps Pe excl)
      = (xs ++ ys).flatMap (perParticipantConflicts db Ps Pe excl) := by
    simp [List.flatMap_append, List.flatMap_cons, hz]
  rw [h]

/-- Witness for C6: id 99 matches no participant of the fixture database,
and removing it from the request leaves the result unchanged. -/
theorem unknown_participant_inert_witness :
    check_conflicts dbW [1, 99] 5 15 none =
      check_conflicts dbW [1] 5 15 none :=
  unknown_participant_inert dbW [1] [] 99 5 15 none rfl

theorem flatMap_replicate {α β : Type} (k : Nat) (a : α) (f : α → List β) :
    (List.replicate k a).flatMap f = (List.replicate k (f a)).flatten := by
  induction k with
  | zero => rfl
  | succ n ih => simp [List.replicate_succ, ih]

theorem flatten_replicate_length {α : Type} (k : Nat) (l : List α) :
    ((List.replicate k l).flatten).length = k * l.length := by
  induction k with
  | zero => simp
  | succ n ih =>
      simp [List.replicate_succ, ih]
      ring

/-- C10: `participant_ids` is an ordered list and is not deduplicated: an
id occurring `k` times contributes its per-participant record block `k`
times, so each overlapping non-excluded booking of that participant
yields `k` records rather than one. -/
theorem participant_ids_not_deduplicated (db : DB) (xs ys : List UUID)
    (k : Nat) (pid : UUID) (Ps Pe : Int) (excl : Option UUID) :
    (check_conflicts db (xs ++ List.replicate k pid ++ ys) Ps Pe excl).snd =
      (check_conflicts db xs Ps Pe excl).snd
        ++ (List.replicate k (perParticipantConflicts db Ps Pe excl pid)).flatten
        ++ (check_conflicts db ys Ps Pe excl).snd ∧
    ((List.replicate k (perParticipantConflicts db Ps Pe excl pid)).flatten).length
      = k * (perParticipantConflicts db Ps Pe excl pid).length := by
  constructor
  · rw [check_conflicts_snd, check_conflicts_snd, check_conflicts_snd]
    simp only [List.flatMap_append, flatMap_replicate, List.append_assoc]
  · exact flatten_replicate_length k _

/-- `ConflictCheckRequest` from `app/schemas.py`. -/
structure ConflictCheckRequest where
  participant_ids : List UUID
  start_time : Int
  end_time : Int
  exclude_meeting_id : Option UUID
deriving DecidableEq, Repr

/-- Validation of `ConflictCheckRequest`: the `min_items=1` constraint on
`participant_ids` and the `end_time_must_be_after_start_time` validator
rejecting `end_time <= start_time`. -/
def validateConflictCheckRequest (r : ConflictCheckRequest) :
    Except String ConflictCheckRequest :=
  if r.participant_ids.length < 1 then
    Except.error "ensure this value has at least 1 items"
  else if r.end_time ≤ r.start_time then
    Except.error "end_time must be after start_time"
  else Except.ok r

/-- The `/api/conflicts/check` route (`app/routes/conflicts.py`): the
request body is validated against the schema first (an invalid body never
reaches the handler), and only then is `ConflictService.check_conflicts`
invoked on the validated values. -/
def route_check_conflicts (db : DB) (r : ConflictCheckRequest) :
    Except String (Bool × List ConflictInfo) :=
  (validateConflictCheckRequest r).map (fun req =>
    check_conflicts db req.participant_ids req.start_time req.end_time
      req.exclude_meeting_id)

/-- C8: the boundary rejects `end_time <= start_time` and empty
`participant_ids` before the core runs: a successful route call implies
the request had `start_time < end_time` and a non-empty id list and its
result is the core's output on exactly those values, while an invalid
request is answered with a validation error. -/
theorem boundary_validates_before_core (db : DB) (r : ConflictCheckRequest) :
    (∀ out, route_check_conflicts db r = Except.ok out →
       r.start_time < r.end_time ∧ r.participant_ids ≠ [] ∧
         out = check_conflicts db r.participant_ids r.start_time r.end_time
           r.exclude_meeting_id) ∧
    (r.end_time ≤ r.start_time ∨ r.participant_ids = [] →
       ∃ msg, route_check_conflicts db r = Except.error msg) := by
  unfold route_check_conflicts validateConflictCheckRequest
  by_cases h1 : r.participant_ids.length < 1
  · rw [if_pos h1]
    constructor
    · intro out hok
      simp [Except.map] at hok
    · intro _
      exact ⟨_, rfl⟩
  · rw [if_neg h1]
    by_cases h2 : r.end_time ≤ r.start_time
    · rw [if_pos h2]
      constructor
      · intro out hok
        simp [Except.map] at hok
      · intro _
        exact ⟨_, rfl⟩
    · rw [if_neg h2]
      constructor
      · intro out hok
        simp [Except.map] at hok
        refine ⟨not_le.mp h2, ?_, hok.symm⟩
        intro hnil
        rw [hnil] at h1
        exact h1 (by simp)
      · rintro (hc | hc)
        · exact absurd hc h2
        · exact absurd (by rw [hc]; simp) h1

/-- Witness for C8: a valid request reaches the core unchanged. -/
theorem boundary_validates_before_core_witness :
    (5 : Int) < 15 ∧ ([1] : List UUID) ≠ [] ∧
      check_conflicts dbW [1] 5 15 none = check_conflicts dbW [1] 5 15 none :=
  (boundary_validates_before_core dbW ⟨[1], 5, 15, none⟩).1
    (check_conflicts dbW [1] 5 15 none) rfl

/-- The fields of a stored `meetings` row that interval validation
concerns. -/
structure StoredMeeting where
  title : String
  start_time : Int
  end_time : Int
deriving DecidableEq, Repr

/-- The time fields of `MeetingBase`/`MeetingCreate` (`app/schemas.py`). -/
structure MeetingCreate where
  title : String
  start_time : Int
  end_time : Int
deriving DecidableEq, Repr

/-- `MeetingBase.end_time_must_be_after_start_time`: creation rejects
`end_time <= start_time`. -/
def validateMeetingCreate (m : MeetingCreate) : Except String MeetingCreate :=
  if m.end_time ≤ m.start_time then
    Except.error "end_time must be after start_time"
  else Except.ok m

/-- `MeetingUpdate` (`app/schemas.py`): every field optional; `none`
models a field absent from the payload (pydantic `exclude_unset`). -/
structure MeetingUpdate where
  title : Option String
  start_time : Option Int
  end_time : Option Int
deriving DecidableEq, Repr

/-- `MeetingUpdate.end_time_must_be_after_start_time`: the validator
compares the two times only when both appear in the payload
(`if v and ... values.get and v <= values: raise`). -/
def validateMeetingUpdate (u : MeetingUpdate) : Except String MeetingUpdate :=
  match u.end_time, u.start_time with
  | some e, some s =>
      if e ≤ s then Except.error "end_time must be after start_time"
      else Except.ok u
  | _, _ => Except.ok u

/-- `MeetingService.update_meeting`: `setattr` of each field present in
the payload onto the stored row, with no re-validation against the stored
values. -/
def update_meeting (m : StoredMeeting) (u : MeetingUpdate) : StoredMeeting :=
  { title := u.title.getD m.title
    start_time := u.start_time.getD m.start_time
    end_time := u.end_time.getD m.end_time }

/-- Counterexample to C7: a meeting validly created as `[0,10)` is
updated with a payload carrying only `start_time := 20`; the update
validator accepts it (only one time field present) and the stored row
becomes `[20,10)`, an inverted interval. -/
theorem interval_invariant_counterexample :
    validateMeetingCreate { title := "m", start_time := 0, end_time := 10 }
        = Except.ok { title := "m", start_time := 0, end_time := 10 } ∧
    validateMeetingUpdate
        { title := none, start_time := some 20, end_time := none }
        = Except.ok { title := none, start_time := some 20, end_time := none } ∧
    (update_meeting { title := "m", start_time := 0, end_time := 10 }
        { title := none, start_time := some 20, end_time := none }).end_time
      ≤ (update_meeting { title := "m", start_time := 0, end_time := 10 }
        { title := none, start_time := some 20, end_time := none }).start_time := by
  refine ⟨rfl, rfl, ?_⟩
  decide

/-- C7 amended: meeting creation and conflict-check requests always
reject `end_time <= start_time`; a meeting update is checked only when
both time fields appear in the payload (a both-fields update passes
validation iff `start < end`, and a single-field update always passes),
so a partial update can leave a stored meeting with
`end_time <= start_time`. -/
theorem interval_validation_amended :
    (∀ m m' : MeetingCreate, validateMeetingCreate m = Except.ok m' →
       m'.start_time < m'.end_time) ∧
    (∀ r r' : ConflictCheckRequest,
       validateConflictCheckRequest r = Except.ok r' →
         r'.start_time < r'.end_time) ∧
    (∀ (t : Option String) (s e : Int),
       validateMeetingUpdate ⟨t, some s, some e⟩
           = Except.ok ⟨t, some s, some e⟩ ↔ s < e) ∧
    (∀ (t : Option String) (s : Option Int),
       validateMeetingUpdate ⟨t, s, none⟩ = Except.ok ⟨t, s, none⟩) := by
  refine ⟨?_, ?_, ?_, ?_⟩
  · intro m m' hok
    unfold validateMeetingCreate at hok
    by_cases hc : m.end_time ≤ m.start_time
    · rw [if_pos hc] at hok
      cases hok
    · rw [if_neg hc] at hok
      cases hok
      exact not_le.mp hc
  · intro r r' hok
    unfold validateConflictCheckRequest at hok
    by_cases h1 : r.participant_ids.length < 1
    · rw [if_pos h1] at hok
      cases hok
    · rw [if_neg h1] at hok
      by_cases h2 : r.end_time ≤ r.start_time
      · rw [if_pos h2] at hok
        cases hok
      · rw [if_neg h2] at hok
        cases hok
        exact not_le.mp h2
  · intro t s e
    simp only [validateMeetingUpdate]
    by_cases hc : e ≤ s
    · rw [if_pos hc]
      constructor
      · intro hok
        cases hok
      · intro hlt
        exact absurd hc (not_le.mpr hlt)
    · rw [if_neg hc]
      simp [not_le.mp hc]
  · intro t s
    rfl

/-- Witness for the amended C7: the validated fixtures have ordered
intervals, the single-field update payload passes validation, and the
both-fields inverted payload is rejected. -/
theorem interval_validation_amended_witness :
    (0 : Int) < 10 ∧ (5 : Int) < 15 :=
  ⟨interval_validation_amended.1 ⟨"m", 0, 10⟩ ⟨"m", 0, 10⟩ rfl,
   interval_validation_amended.2.1 ⟨[1], 5, 15, none⟩ ⟨[1], 5, 15, none⟩ rfl⟩

/-- The database with fallible reads: each query either returns rows or
raises a storage error, which `check_conflicts` does not catch. -/
structure DBE where
  participantLookup : UUID → Except String (Option Participant)
  bookingsFor : UUID → Except String (List Meeting)

/-- The `WHERE` clause of the meetings query applied to fetched rows. -/
def filterConflicting (rows : List Meeting) (Ps Pe : Int)
    (excl : Option UUID) : List Meeting :=
  let query := rows.filter (overlapsProposed Ps Pe)
  match excl with
  | some eid => query.filter (fun m => decide (m.id ≠ eid))
  | none => query

/-- The loop of `check_conflicts` over the fallible database: both reads
run inside each iteration and an error aborts the whole call (the
service has no exception handling). -/
def collectConflictsE (db : DBE) (ids : List UUID) (Ps Pe : Int)
    (excl : Option UUID) : Except String (List ConflictInfo) :=
  match ids with
  | [] => Except.ok []
  | pid :: rest =>
      match db.participantLookup pid with
      | Except.error e => Except.error e
      | Except.ok none => collectConflictsE db rest Ps Pe excl
      | Except.ok (some participant) =>
          match db.bookingsFor pid with
          | Except.error e => Except.error e
          | Except.ok rows =>
              match collectConflictsE db rest Ps Pe excl with
              | Except.error e => Except.error e
              | Except.ok rest2 =>
                  Except.ok ((filterConflicting rows Ps Pe excl).map
                    (mkConflictInfo participant) ++ rest2)

/-- `check_conflicts` over the fallible database. -/
def check_conflictsE (db : DBE) (ids : List UUID) (Ps Pe : Int)
    (excl : Option UUID) : Except String (Bool × List ConflictInfo) :=
  (collectConflictsE db ids Ps Pe excl).map (fun conflicts =>
    (decide (conflicts.length > 0), conflicts))

theorem collectConflictsE_error (db : DBE) (Ps Pe : Int) (excl : Option UUID)
    (pid : UUID) (e : String)
    (he : db.participantLookup pid = Except.error e) :
    ∀ ids : List UUID, pid ∈ ids →
      ∀ cs, collectConflictsE db ids Ps Pe excl ≠ Except.ok cs := by
  intro ids
  induction ids with
  | nil =>
      intro h
      cases h
  | cons a rest ih =>
      intro hmem cs hok
      by_cases hpa : a = pid
      · subst hpa
        simp [collectConflictsE, he] at hok
      · have hmem' : pid ∈ rest := by
          rcases List.mem_cons.mp hmem with h | h
          · exact absurd h.symm hpa
          · exact h
        cases hla : db.participantLookup a with
        | error err => simp [collectConflictsE, hla] at hok
        | ok p? =>
            cases p? with
            | none =>
                simp only [collectConflictsE, hla] at hok
                exact ih hmem' cs hok
            | some participant =>
                cases hbk : db.bookingsFor a with
                | error err => simp [collectConflictsE, hla, hbk] at hok
                | ok rows =>
                    cases hrec : collectConflictsE db rest Ps Pe excl with
                    | error err =>
                        simp [collectConflictsE, hla, hbk, hrec] at hok
                    | ok rest2 => exact ih hmem' rest2 hrec

/-- C9: a repository failure on any requested participant id makes the
whole call fail with an error: no report, not even a partial one, is
returned. -/
theorem lookup_failure_is_all_or_nothing (db : DBE) (ids : List UUID)
    (Ps Pe : Int) (excl : Option UUID) (pid : UUID) (e : String)
    (hmem : pid ∈ ids) (he : db.participantLookup pid = Except.error e)
    (out : Bool × List ConflictInfo) :
    check_conflictsE db ids Ps Pe excl ≠ Except.ok out := by
  intro hok
  unfold check_conflictsE at hok
  cases hc : collectConflictsE db ids Ps Pe excl with
  | error err =>
      rw [hc] at hok
      simp [Except.map] at hok
  | ok cs => exact collectConflictsE_error db Ps Pe excl pid e he ids hmem cs hc

/-- Fixture for C9: participant 1 resolves, every other id raises. -/
def dbEW : DBE :=
  { participantLookup := fun pid =>
      if pid = 1 then Except.ok (some participantW)
      else Except.error "storage unavailable"
    bookingsFor := fun pid =>
      if pid = 1 then Except.ok [meetingW1, meetingW2] else Except.ok [] }

/-- Witness for C9: with participant 2 failing, not even the complete
report for participant 1 is returned. -/
theorem lookup_failure_is_all_or_nothing_witness :
    check_conflictsE dbEW [1, 2] 5 15 none ≠
      Except.ok (true, [mkConflictInfo participantW meetingW1,
        mkConflictInfo participantW meetingW2]) :=
  lookup_failure_is_all_or_nothing dbEW [1, 2] 5 15 none 2
    "storage unavailable" (by decide) rfl _

end MeetingScheduler
